import Mathlib

/-! # Verification of the staleness-determination engine of `dismiss_if_stale`

This file shallowly embeds the TypeScript sources of the `dismiss_if_stale`
GitHub action and proves properties of the embedding.

Embedded sources:
* `src/range-diff.ts` — `parseRangeDiffOutput` (the range-diff classifier).
* `src/dismiss-if-stale.ts` — `normalizeDiff`, `genTwoDotDiff`,
  `tryRangeDiffCheck`, `genReviewedDiff` and the orchestrating
  `dismissIfStale`.
* `src/pull-request.ts` — `PullRequest.getMostRecentlyReviewedDiff` and the
  constructor checks.
* the earlier variant of `dismiss-if-stale.ts` (with the rebase
  reconciliation step and `dry_run`, using `GitRepo` from `git-repo.ts`),
  embedded in namespace `Legacy`.

External collaborators (the GitHub REST API, the filesystem, and spawned
`git`/`gh` processes) are modelled as inputs: each evaluation run is a pure
function of an environment record that carries the observable result of every
external call the code can make, and returns both the run's outcome and a
trace of the side effects the code performed.
-/

/-! ## JavaScript string primitives

The TypeScript code manipulates JS strings; we work on `List Char` (and wrap
`String` at the boundaries).  The combinators below mirror the exact JS
semantics the code relies on: `\s` character class, `String.prototype.trim`,
`String.prototype.split('\n')`, and truthiness of `string | null | undefined`.
-/

/-- The JavaScript `\s` regex class (WhiteSpace ∪ LineTerminator):
space, tab, LF, VT, FF, CR, NBSP, and the Unicode space separators,
line/paragraph separators, NNBSP, MMSP, ideographic space and BOM. -/
def isJsSpace (c : Char) : Bool :=
  c == ' ' || c == '\t' || c == '\n' || c == '\x0b' || c == '\x0c' ||
  c == '\r' || c.val == 0xa0 || c.val == 0x1680 ||
  (0x2000 ≤ c.val && c.val ≤ 0x200a) || c.val == 0x2028 || c.val == 0x2029 ||
  c.val == 0x202f || c.val == 0x205f || c.val == 0x3000 || c.val == 0xfeff

/-- JS `String.prototype.trim()`: strip `\s` characters from both ends. -/
def jsTrim (l : List Char) : List Char :=
  ((l.dropWhile isJsSpace).reverse.dropWhile isJsSpace).reverse

/-- JS `String.prototype.split('\n')` on the character list:
`"" ↦ [""]`, `"a\n" ↦ ["a", ""]`. -/
def splitOnNl : List Char → List (List Char)
  | [] => [[]]
  | c :: rest =>
    match splitOnNl rest with
    | [] => [[]]
    | line :: more =>
      if c = '\n' then [] :: line :: more else (c :: line) :: more

/-- Truthiness of a JS `string | null | undefined` value:
`null`/`undefined` and the empty string are falsy. -/
def truthyOpt : Option String → Bool
  | none => false
  | some s => s != ""

/-! ## The range-diff classifier (`src/range-diff.ts`)

`parseRangeDiffOutput` scans the output of `git range-diff` line by line and
tallies the four commit markers.  The regex

  `/^\s*-?(\d+)?:\s+[0-9a-f-]+\s+([=!<>])\s+-?(\d+)?:/`

is implemented by the deterministic matcher `matchRecordMarker` below: every
quantified character class in the regex is disjoint from the character that
must follow it (`\s` vs `-`/digit/`:`/`[0-9a-f-]`/`[=!<>]`, digits vs `:`,
`[0-9a-f-]` vs `\s`), and the optional `-?`/`(\d+)?` can only succeed by
consuming greedily, so the backtracking regex engine and the greedy
one-pass matcher accept exactly the same strings with the same capture. -/

/-- The regex class `[0-9a-f]` (lower-case hex digit). -/
def isHexDigitLower (c : Char) : Bool :=
  "0123456789abcdef".toList.contains c

/-- The regex class `[0-9a-f-]` used for the sha-or-dashes column. -/
def isHexOrDash (c : Char) : Bool := isHexDigitLower c || c == '-'

/-- The regex class `\d`. -/
def isAsciiDigit (c : Char) : Bool := "0123456789".toList.contains c

/-- `-?`: consume an optional leading dash. -/
def dropOptDash : List Char → List Char
  | '-' :: rest => rest
  | l => l

/-- A literal `:` in the pattern. -/
def expectColon : List Char → Option (List Char)
  | ':' :: rest => some rest
  | _ => none

/-- A `p+` occurrence: require at least one `p`-character, consume greedily. -/
def takePlus (p : Char → Bool) : List Char → Option (List Char)
  | [] => none
  | c :: cs => if p c then some (cs.dropWhile p) else none

/-- Match `^\s*-?(\d+)?:\s+[0-9a-f-]+\s+([=!<>])\s+-?(\d+)?:` at the start of
the line and return the captured marker character. -/
def matchRecordMarker (l : List Char) : Option Char :=
  let l := l.dropWhile isJsSpace
  let l := dropOptDash l
  let l := l.dropWhile isAsciiDigit
  match expectColon l with
  | none => none
  | some l =>
    match takePlus isJsSpace l with
    | none => none
    | some l =>
      match takePlus isHexOrDash l with
      | none => none
      | some l =>
        match takePlus isJsSpace l with
        | none => none
        | some l =>
          match l with
          | [] => none
          | m :: l =>
            if m == '=' || m == '!' || m == '<' || m == '>' then
              match takePlus isJsSpace l with
              | none => none
              | some l =>
                let l := dropOptDash l
                let l := l.dropWhile isAsciiDigit
                match expectColon l with
                | none => none
                | some _ => some m
            else none

/-- The loop's `continue` filter: skip empty lines and lines starting with a
space or a tab (diff-detail continuation lines). -/
def isSkippedLine : List Char → Bool
  | [] => true
  | c :: _ => c == ' ' || c == '\t'

/-- Result record of the classifier (`RangeDiffResult` in the source). -/
structure RangeDiffResult where
  isStale : Bool
  summary : String
deriving DecidableEq

/-- The per-marker tallies accumulated by the parsing loop. -/
structure MarkerCounts where
  identicalCount : Nat
  modifiedCount : Nat
  addedCount : Nat
  removedCount : Nat
deriving DecidableEq

/-- One iteration of the parsing loop of `parseRangeDiffOutput`. -/
def tallyLine (acc : MarkerCounts) (line : List Char) : MarkerCounts :=
  if isSkippedLine line then acc
  else
    match matchRecordMarker line with
    | some '=' => { acc with identicalCount := acc.identicalCount + 1 }
    | some '!' => { acc with modifiedCount := acc.modifiedCount + 1 }
    | some '>' => { acc with addedCount := acc.addedCount + 1 }
    | some '<' => { acc with removedCount := acc.removedCount + 1 }
    | _ => acc

/-- The summary built when changes were detected:
`"Commits changed: {parts}"` with the non-zero categories enumerated. -/
def changedSummary (c : MarkerCounts) : String :=
  let m := c.modifiedCount
  let a := c.addedCount
  let r := c.removedCount
  let parts :=
    (if m > 0 then [s!"{m} modified"] else []) ++
    (if a > 0 then [s!"{a} added"] else []) ++
    (if r > 0 then [s!"{r} removed"] else [])
  "Commits changed: " ++ String.intercalate ", " parts

/-- `parseRangeDiffOutput` from `src/range-diff.ts`. -/
def parseRangeDiffOutput (output : String) : RangeDiffResult :=
  if output = "" ∨ jsTrim output.data = [] then
    ⟨false, "No changes detected"⟩
  else
    let counts := (splitOnNl output.data).foldl tallyLine ⟨0, 0, 0, 0⟩
    let hasChanges :=
      counts.modifiedCount > 0 || counts.addedCount > 0 ||
        counts.removedCount > 0
    if hasChanges then
      ⟨true, changedSummary counts⟩
    else
      ⟨false,
        if counts.identicalCount > 0 then
          let n := counts.identicalCount
          s!"{n} identical commit(s)"
        else "No changes detected"⟩

/-- True when the classifier tallies the line as a stale (non-identical)
commit record: not skipped, and the matched marker is `!`, `<` or `>`. -/
def isStaleRecord (l : List Char) : Bool :=
  !isSkippedLine l &&
    (matchRecordMarker l == some '!' || matchRecordMarker l == some '<' ||
      matchRecordMarker l == some '>')

/-! ## The diff normalizer (`normalizeDiff` in `src/dismiss-if-stale.ts`)

`normalizeDiff` is `diff.replace(/^index [0-9a-f]+\.\.[0-9a-f]+/gm, '')`.
With the `m` flag, `^` matches at the start of the string and right after
every JS LineTerminator (`\n`, `\r`, U+2028, U+2029).  The pattern contains
no line terminators, so each match lies inside a single line, starts at the
line's first character, and at most one match occurs per line (the scan
resumes after the matched prefix, and `^` cannot match again before the next
terminator).  The class `[0-9a-f]+` is greedy and disjoint from the `.` that
must follow, so matching is deterministic.  The global replace is therefore
exactly: split the text into terminator-delimited lines and strip the
matched prefix, if any, from each line. -/

/-- A JS LineTerminator (`\n`, `\r`, U+2028, U+2029). -/
def isJsLineTerm (c : Char) : Bool :=
  c == '\n' || c == '\r' || c.val == 0x2028 || c.val == 0x2029

/-- Split into pieces, each piece one line together with the single
terminator that ends it (the final piece may lack a terminator). -/
def splitLinesKT : List Char → List (List Char)
  | [] => []
  | c :: rest =>
    if isJsLineTerm c then [c] :: splitLinesKT rest
    else
      match splitLinesKT rest with
      | [] => [[c]]
      | piece :: more => (c :: piece) :: more

/-- Match a literal character sequence, returning the remainder. -/
def stripLit : List Char → List Char → Option (List Char)
  | [], l => some l
  | _ :: _, [] => none
  | p :: ps, c :: cs => if c = p then stripLit ps cs else none

/-- Match `^index [0-9a-f]+\.\.[0-9a-f]+` and return the remainder of the
line after the matched prefix. -/
def matchIndexMeta (l : List Char) : Option (List Char) :=
  (stripLit "index ".toList l).bind fun l1 =>
    (takePlus isHexDigitLower l1).bind fun l2 =>
      (stripLit "..".toList l2).bind fun l3 =>
        takePlus isHexDigitLower l3

/-- Replace the matched `index`-metadata prefix of one line by the empty
string (the per-line action of the global replace). -/
def stripIndexLine (piece : List Char) : List Char :=
  match matchIndexMeta piece with
  | some rest => rest
  | none => piece

/-- Concatenate the pieces back together. -/
def joinAll (ls : List (List Char)) : List Char :=
  ls.foldr (fun a b => a ++ b) []

/-- `normalizeDiff` on character lists. -/
def normalizeDiffChars (l : List Char) : List Char :=
  joinAll ((splitLinesKT l).map stripIndexLine)

/-- `normalizeDiff` from `src/dismiss-if-stale.ts`:
`diff.replace(/^index [0-9a-f]+\.\.[0-9a-f]+/gm, '')`. -/
def normalizeDiff (diff : String) : String :=
  ⟨normalizeDiffChars diff.data⟩

/-- No line of `s` still begins with an `index`-metadata match (so another
application of `normalizeDiff` strips nothing). -/
def noResidualIndexMeta (s : String) : Bool :=
  (splitLinesKT s.data).all (fun piece => (matchIndexMeta piece).isNone)

/-! ## Data model of an evaluation run

Every external observation the code can make during one run (the GitHub
event payload, the cache files, the REST API responses, and the spawned git
processes) is a field of an environment record; the run itself is then a
pure function of the environment. -/

/-- The `pull_request` member of the event payload (the fields the code
reads). -/
structure PullRequestPayload where
  base_ref : String
  base_sha : String
  head_sha : String
  rebaseable : Bool
deriving DecidableEq

/-- The `repository` member of the event payload. -/
structure Repository where
  full_name : Option String
deriving DecidableEq

/-- The triggering event payload (`github.context.payload`), restricted to
the fields the code reads.  `changes_base_sha_from` models
`payload.changes.base.sha.from` of an `edited` event: `none` when
`changes.base` is absent or `sha.from` is `undefined`, `some ""` when it is
the (falsy) empty string. -/
structure Payload where
  action : Option String
  changes_base_sha_from : Option String
  pull_request : Option PullRequestPayload
  repository : Option Repository
deriving DecidableEq

/-- One review returned by `pulls.listReviews` (fields the code reads).
`commit_id` and `submitted_at` are nullable in the REST schema. -/
structure Review where
  id : Nat
  commit_id : Option String
  submitted_at : Option String
  state : String
deriving DecidableEq

/-- One timeline event returned by `issues.listEvents`. -/
structure TimelineEvent where
  event : String
  created_at : Option String
deriving DecidableEq

/-- The `created_at` timestamp with `none` read as the empty string. -/
def createdAtStr (e : TimelineEvent) : String :=
  e.created_at.getD ""

/-- The reviews with `state === 'APPROVED'`, in the order the API returned
them (chronological). -/
def approvedOf (reviews : List Review) : List Review :=
  reviews.filter (fun r => r.state == "APPROVED")

/-- The reverse-chronological scan of `getMostRecentlyReviewedDiff`: walk
the timeline events latest-first; throw on a falsy `created_at`; stop at
the first event strictly before the approval; report whether a
`base_ref_changed` event was seen at or after the approval. -/
def scanEventsRev (events : List TimelineEvent) (time_of_approval : String) :
    Except String Bool :=
  match events with
  | [] => Except.ok false
  | e :: rest =>
    match e.created_at with
    | none => Except.error "Unable to determine time of event."
    | some c =>
      if c = "" then Except.error "Unable to determine time of event."
      else if c < time_of_approval then Except.ok false
      else if e.event == "base_ref_changed" then Except.ok true
      else scanEventsRev rest time_of_approval

/-- `PullRequest.getMostRecentlyReviewedDiff` from `src/pull-request.ts`.
`compareResult` is the outcome the GitHub compare API would give for
`base_branch...most_recent_commit`; `Except.error` models a thrown
exception escaping the method. -/
def getMostRecentlyReviewedDiff (pull_request : Option PullRequestPayload)
    (reviews : List Review) (events : List TimelineEvent)
    (compareResult : Except String String) : Except String (Option String) :=
  match (approvedOf reviews).getLast? with
  | none =>
    -- `approved_reviews[length - 1]` is `undefined`: reading
    -- `.submitted_at` throws a TypeError.
    Except.error "TypeError: cannot read properties of undefined"
  | some most_recent =>
    match most_recent.submitted_at with
    | none => Except.error "Unable to determine time of approval."
    | some t =>
      if t = "" then Except.error "Unable to determine time of approval."
      else
        match pull_request with
        | none => Except.error "This action must be run on a pull request."
        | some _ =>
          match scanEventsRev events.reverse t with
          | Except.error e => Except.error e
          | Except.ok true => Except.ok none
          | Except.ok false =>
            if truthyOpt most_recent.commit_id = false then
              Except.error "Unable to determine commit ID of review."
            else
              match compareResult with
              | Except.ok d => Except.ok (some d)
              | Except.error _ => Except.ok none

/-- `genReviewedDiff`: use the cached diff file when it exists, otherwise
reconstruct from the review history. -/
def genReviewedDiff (cachedDiff : Option String)
    (pull_request : Option PullRequestPayload) (reviews : List Review)
    (events : List TimelineEvent) (compareResult : Except String String) :
    Except String (Option String) :=
  match cachedDiff with
  | some s => Except.ok (some s)
  | none => getMostRecentlyReviewedDiff pull_request reviews events compareResult

/-- The result of `JSON.parse(rawMetadata) as ApprovalMetadata`: the cast
does not validate, so every field the code reads may be absent.  A JSON
value of the wrong primitive type for `version` (which then compares
unequal to `1`) is collapsed to `none`. -/
structure ParsedMetadata where
  version : Option Int
  approved_sha : Option String
  merge_base_sha : Option String
deriving DecidableEq

/-- Result of the fast-path check (`RangeDiffCheckResult` in the source). -/
inductive RangeDiffCheckResult where
  | not_stale
  | stale
  | fallback
deriving DecidableEq

/-- The externally observable side effects of one evaluation run. -/
structure Trace where
  getMergeBaseCalled : Bool
  ranRangeDiff : Bool
  calledGenReviewedDiff : Bool
  calledCompareCurrent : Bool
  calledGenTwoDot : Bool
  attemptedRebase : Bool
  wroteReviewedFile : Bool
  wroteCurrentFile : Bool
  dismissed : Option String
deriving DecidableEq

/-- The empty trace: no API call, no process spawned, no file written, no
dismissal. -/
def Trace.empty : Trace :=
  ⟨false, false, false, false, false, false, false, false, none⟩

/-- How an evaluation run of `dismissIfStale` ended (when it did not throw):
skipped by the trigger filter, ended early on the range-diff fast path, or
reached the verdict step with the recorded final reviewed diff, final
current diff, and dismissal message (if any). -/
inductive RunResult where
  | skipped
  | fastPathNotStale
  | verdict (reviewed : Option String) (current : String)
      (dismissal : Option String)
deriving DecidableEq

/-- What the spawned `git diff` process would do, independent of the buffer
bound imposed by the caller: a spawn-level failure code (e.g. `ENOENT`), the
full output it would produce, and its exit status (`none` when killed by a
signal). -/
structure ProcessBehavior where
  spawnFailureCode : Option String
  output : String
  exitStatus : Option Int
deriving DecidableEq

/-- The fields of a Node `spawnSync` result that the code reads. -/
structure SpawnOutcome where
  errCode : Option String
  status : Option Int
  stdout : String
deriving DecidableEq

/-- Node `spawnSync` with `encoding` and `maxBuffer` set, as used by
`genTwoDotDiff`: a spawn failure surfaces in `result.error`; output beyond
`maxBuffer` kills the child and sets `result.error` with code `ENOBUFS`;
otherwise the full output and exit status are reported. -/
def runSpawn (maxBuffer : Nat) (p : ProcessBehavior) : SpawnOutcome :=
  match p.spawnFailureCode with
  | some c => ⟨some c, none, ""⟩
  | none =>
    if p.output.length > maxBuffer then ⟨some "ENOBUFS", none, ""⟩
    else ⟨none, p.exitStatus, p.output⟩

/-- The `maxBuffer` passed to `spawnSync` by `genTwoDotDiff`:
`32 * 1024 * 1024` bytes. -/
def twoDotMaxBuffer : Nat := 32 * 1024 * 1024

/-- The environment of one evaluation run of the current
`dismiss-if-stale.ts`: the event payload plus the observable result of
every external call the run can make. -/
structure Env where
  payload : Payload
  /-- `core.getInput('diffs_directory')` (empty string when unset). -/
  diffs_dir : String
  /-- The `path_to_cached_metadata` input. -/
  path_to_cached_metadata : String
  /-- The cached metadata file: `none` when `fs.existsSync` is false,
  `some none` when the file exists but `JSON.parse` throws, and
  `some (some m)` when it parses to `m`. -/
  metadataFile : Option (Option ParsedMetadata)
  /-- Result of `pull_request.getMergeBase(base_ref, current_head)`;
  `Except.error` models a thrown exception. -/
  mergeBase : Except String String
  /-- Result of `runRangeDiff` (`src/range-diff.ts`): `none` models the
  `null` it returns on any spawn error, `ENOBUFS`, or non-zero exit. -/
  rangeDiffOut : Option String
  /-- The cached reviewed-diff file: `none` when absent. -/
  cachedDiff : Option String
  /-- Reviews returned by `pulls.listReviews` (chronological). -/
  reviews : List Review
  /-- Timeline events returned by `issues.listEvents` (chronological). -/
  events : List TimelineEvent
  /-- Result of the compare call for the historical reviewed diff. -/
  compareHistorical : Except String String
  /-- Result of `compareCommits(base.sha, head.sha)` (current three-dot
  diff); `Except.error` models a thrown exception. -/
  compareCurrent : Except String String
  /-- `fs.existsSync(repo_path)` at the start of `genTwoDotDiff`. -/
  repoDirExists : Bool
  /-- Whether the `gh repo clone` / `gh auth setup-git` step would succeed
  (`execSync` throws on failure). -/
  cloneOk : Bool
  /-- Whether `git fetch` would succeed (`execSync` throws on failure). -/
  fetchOk : Bool
  /-- The spawned `git diff base_sha head_sha` process. -/
  diffProc : ProcessBehavior

/-- The trigger filter at the top of `dismissIfStale`: proceed only for a
`synchronize` event, or an `edited` event whose `changes.base.sha.from` is
truthy. -/
def triggerRelevant (p : Payload) : Bool :=
  p.action == some "synchronize" ||
    (p.action == some "edited" && truthyOpt p.changes_base_sha_from)

/-- The checks of the `PullRequest` constructor: the payload must carry a
repository and a pull request, and the repository a truthy `full_name`. -/
def ctorCheck (p : Payload) : Except String PullRequestPayload :=
  match p.repository, p.pull_request with
  | some repo, some pr =>
    if truthyOpt repo.full_name then Except.ok pr
    else Except.error "Unable to determine repository name."
  | _, _ => Except.error "This action must be run on a pull request."

/-- The trace produced by `tryRangeDiffCheck` alone. -/
def mkFastTrace (mergeBaseCalled ranRange : Bool) : Trace :=
  { Trace.empty with
      getMergeBaseCalled := mergeBaseCalled
      ranRangeDiff := ranRange }

/-- `tryRangeDiffCheck` from `src/dismiss-if-stale.ts`: load and validate
the cached `ApprovalMetadata`, resolve the current merge base, run
`git range-diff`, and classify.  Every failure along the way is caught and
reported as `fallback`; the function itself cannot throw. -/
def tryRangeDiffCheck (env : Env) : RangeDiffCheckResult × Trace :=
  if env.path_to_cached_metadata = "" then
    (RangeDiffCheckResult.fallback, mkFastTrace false false)
  else
    match env.metadataFile with
    | none => (RangeDiffCheckResult.fallback, mkFastTrace false false)
    | some none => (RangeDiffCheckResult.fallback, mkFastTrace false false)
    | some (some m) =>
      if m.version ≠ some 1 then
        (RangeDiffCheckResult.fallback, mkFastTrace false false)
      else if !truthyOpt m.approved_sha || !truthyOpt m.merge_base_sha then
        (RangeDiffCheckResult.fallback, mkFastTrace false false)
      else
        match env.mergeBase with
        | Except.error _ => (RangeDiffCheckResult.fallback, mkFastTrace true false)
        | Except.ok _ =>
          match env.rangeDiffOut with
          | none => (RangeDiffCheckResult.fallback, mkFastTrace true true)
          | some out =>
            if (parseRangeDiffOutput out).isStale then
              (RangeDiffCheckResult.stale, mkFastTrace true true)
            else
              (RangeDiffCheckResult.not_stale, mkFastTrace true true)

/-- `genTwoDotDiff` from `src/dismiss-if-stale.ts`: clone if needed, fetch
both commits (`execSync` failures there propagate as thrown errors), then
spawn `git diff`; any spawn error (including `ENOBUFS` for output beyond
the 32MB buffer) and any exit status above 1 yield `null` instead of
throwing. -/
def genTwoDotDiff (env : Env) : Except String (Option String) :=
  if env.repoDirExists = false ∧ env.cloneOk = false then
    Except.error "gh repo clone failed"
  else if env.fetchOk = false then
    Except.error "git fetch failed"
  else
    let res := runSpawn twoDotMaxBuffer env.diffProc
    match res.errCode with
    | some _ => Except.ok none
    | none =>
      match res.status with
      | some n => if n > 1 then Except.ok none else Except.ok (some res.stdout)
      | none => Except.ok (some res.stdout)

/-- The reviewed diff after the `if (reviewed_diff)` normalization step:
a truthy diff is normalized in place, `null` and the falsy `""` are kept. -/
def normReviewed : Option String → Option String
  | none => none
  | some s => if s = "" then some "" else some (normalizeDiff s)

/-- The dismissal message when the reviewed diff could not be determined. -/
def msgUnable : String :=
  "Unable to get the most recently reviewed diff. " ++
    "Pessimistically dismissing stale reviews."

/-- The dismissal message when the content genuinely changed. -/
def msgChanged : String := "Code has changed, dismissing stale reviews."

/-- The dismissal message when the two-dot diff could not be computed. -/
def msgTwoDot : String :=
  "Unable to compute two-dot diff (too large or failed). " ++
    "Pessimistically dismissing stale reviews."

/-- The tail of `dismissIfStale` after the final current diff is fixed:
write `current.diff` when a diffs directory is configured, then dismiss
with the appropriate message iff `reviewed_diff !== current_diff`. -/
def finishVerdict (diffs_dir : String) (reviewed : Option String)
    (current : String) (msg : String) (t : Trace) : RunResult × Trace :=
  let t := if diffs_dir ≠ "" then { t with wroteCurrentFile := true } else t
  if reviewed = some current then
    (RunResult.verdict reviewed current none, t)
  else
    let m :=
      if truthyOpt reviewed = false then msgUnable
      else if msg = "" then msgChanged
      else msg
    (RunResult.verdict reviewed current (some m),
      { t with dismissed := some m })

/-- The two-dot reconciliation step of `dismissIfStale`: when the reviewed
diff is truthy and differs from the current three-dot diff, recompute the
current diff as a two-dot diff; a `null` two-dot diff keeps the three-dot
diff and pre-sets the two-dot failure message. -/
def slowTail (env : Env) (reviewed : Option String) (current1 : String)
    (t : Trace) : Except String (RunResult × Trace) :=
  if truthyOpt reviewed && !(reviewed == some current1) then
    match env.payload.repository with
    | none =>
      Except.error
        "This action must be run on a pull request with repository made available in the payload."
    | some _ =>
      match genTwoDotDiff env with
      | Except.error e => Except.error e
      | Except.ok (some td) =>
        Except.ok (finishVerdict env.diffs_dir reviewed (normalizeDiff td) ""
          { t with calledGenTwoDot := true })
      | Except.ok none =>
        Except.ok (finishVerdict env.diffs_dir reviewed current1 msgTwoDot
          { t with calledGenTwoDot := true })
  else
    Except.ok (finishVerdict env.diffs_dir reviewed current1 "" t)

/-- `dismissIfStale` from the current `src/dismiss-if-stale.ts`: trigger
filter, `PullRequest` construction, range-diff fast path, reviewed- and
current-diff reconstruction, two-dot reconciliation, and verdict.  (The
source spells the trigger filter as an early `return` on the negated
condition; the branches here are the same.) -/
def dismissIfStale (env : Env) : Except String (RunResult × Trace) :=
  if triggerRelevant env.payload then
    match ctorCheck env.payload with
    | Except.error e => Except.error e
    | Except.ok _ =>
      let rd := tryRangeDiffCheck env
      if rd.1 = RangeDiffCheckResult.not_stale then
        Except.ok (RunResult.fastPathNotStale, rd.2)
      else
        let t1 := { rd.2 with calledGenReviewedDiff := true }
        match genReviewedDiff env.cachedDiff env.payload.pull_request
            env.reviews env.events env.compareHistorical with
        | Except.error e => Except.error e
        | Except.ok r0 =>
          let reviewed := normReviewed r0
          let t2 :=
            { t1 with
                wroteReviewedFile := truthyOpt r0 && env.diffs_dir != ""
                calledCompareCurrent := true }
          match env.compareCurrent with
          | Except.error e => Except.error e
          | Except.ok cd0 => slowTail env reviewed (normalizeDiff cd0) t2
  else
    Except.ok (RunResult.skipped, Trace.empty)

namespace Legacy

/-!  The earlier variant of `dismiss-if-stale.ts` (no range-diff fast path;
two-dot reconciliation followed by a rebase retry, and a `dry_run` input),
with `GitRepo` of `git-repo.ts` supplying clone/fetch/diff/rebase. -/

/-- The environment of one evaluation run of the legacy variant. -/
structure Env where
  payload : Payload
  /-- `core.getInput('diffs_directory')`. -/
  diffs_dir : String
  dry_run : Bool
  cachedDiff : Option String
  reviews : List Review
  events : List TimelineEvent
  compareHistorical : Except String String
  compareCurrent : Except String String
  /-- Whether `GitRepo.cloneIfNeeded` would complete without throwing
  (vacuously true when the working copy already exists). -/
  cloneOk : Bool
  /-- Whether `GitRepo.fetch(base_sha, head_sha)` would succeed. -/
  fetchOk : Bool
  /-- Output of `GitRepo.diff` between base and head before any rebase. -/
  twoDotOut : String
  /-- Whether `GitRepo.rebase({head, onto})` would succeed
  (`execSync` throws on a conflict or non-zero exit). -/
  rebaseOk : Bool
  /-- Output of `GitRepo.diff` recomputed after a successful rebase. -/
  rebasedOut : String

/-- The tail of the legacy `dismissIfStale`: write `current.diff` when a
diffs directory is configured, then, iff `reviewed_diff !== current_diff`,
log the message and dismiss — unless `dry_run` is set, in which case no
dismissal call is made. -/
def finishRun (diffs_dir : String) (dry_run : Bool) (reviewed : Option String)
    (current : String) (t : Trace) : RunResult × Trace :=
  let t := if diffs_dir ≠ "" then { t with wroteCurrentFile := true } else t
  if reviewed = some current then
    (RunResult.verdict reviewed current none, t)
  else
    let m := if truthyOpt reviewed = false then msgUnable else msgChanged
    (RunResult.verdict reviewed current (some m),
      if dry_run then t else { t with dismissed := some m })

/-- The legacy `dismissIfStale`: trigger filter, `PullRequest`
construction, reviewed- and current-diff reconstruction, two-dot
reconciliation, rebase retry (a failed rebase is caught, logged, and the
pre-rebase two-dot diff kept), and verdict. -/
def dismissIfStale (env : Env) : Except String (RunResult × Trace) :=
  if triggerRelevant env.payload then
    match ctorCheck env.payload with
    | Except.error e => Except.error e
    | Except.ok pr =>
      let t0 := { Trace.empty with calledGenReviewedDiff := true }
      match genReviewedDiff env.cachedDiff env.payload.pull_request
          env.reviews env.events env.compareHistorical with
      | Except.error e => Except.error e
      | Except.ok r0 =>
        let reviewed := normReviewed r0
        let t1 :=
          { t0 with
              wroteReviewedFile := truthyOpt r0 && env.diffs_dir != ""
              calledCompareCurrent := true }
        match env.compareCurrent with
        | Except.error e => Except.error e
        | Except.ok cd0 =>
          let current1 := normalizeDiff cd0
          if truthyOpt reviewed && !(reviewed == some current1) then
            if env.cloneOk = false then Except.error "gh repo clone failed"
            else if env.fetchOk = false then Except.error "git fetch failed"
            else
              let t2 := { t1 with calledGenTwoDot := true }
              let current2 := normalizeDiff env.twoDotOut
              if !(reviewed == some current2) && pr.rebaseable then
                let t3 := { t2 with attemptedRebase := true }
                if env.rebaseOk then
                  Except.ok (finishRun env.diffs_dir env.dry_run reviewed
                    (normalizeDiff env.rebasedOut) t3)
                else
                  Except.ok (finishRun env.diffs_dir env.dry_run reviewed
                    current2 t3)
              else
                Except.ok (finishRun env.diffs_dir env.dry_run reviewed
                  current2 t2)
          else
            Except.ok (finishRun env.diffs_dir env.dry_run reviewed
              current1 t1)
  else
    Except.ok (RunResult.skipped, Trace.empty)

end Legacy

/-! ## Concrete scenario environments

Closed environments used by counterexamples and witnesses below. -/

/-- A well-formed `synchronize` payload. -/
def stdPayload : Payload :=
  { action := some "synchronize"
    changes_base_sha_from := none
    pull_request := some ⟨"main", "bsha0", "hsha0", true⟩
    repository := some ⟨some "medicode/dismiss_if_stale"⟩ }

/-- A neutral environment: relevant trigger, no cached metadata, no cached
diff, healthy git working copy. -/
def baseEnv : Env :=
  { payload := stdPayload
    diffs_dir := ""
    path_to_cached_metadata := ""
    metadataFile := none
    mergeBase := Except.error "unused"
    rangeDiffOut := none
    cachedDiff := none
    reviews := []
    events := []
    compareHistorical := Except.error "unused"
    compareCurrent := Except.error "unused"
    repoDirExists := true
    cloneOk := true
    fetchOk := true
    diffProc := ⟨none, "", some 0⟩ }

/-- A run with a diffs directory configured whose verdict is not stale:
cached reviewed diff and current three-dot diff agree. -/
def envNotStaleWrites : Env :=
  { baseEnv with
      diffs_dir := "diffs"
      cachedDiff := some "+x\n"
      compareCurrent := Except.ok "+x\n" }

/-- The trace of `dismissIfStale envNotStaleWrites`. -/
def traceNotStaleWrites : Trace :=
  { Trace.empty with
      calledGenReviewedDiff := true
      calledCompareCurrent := true
      wroteReviewedFile := true
      wroteCurrentFile := true }

/-- A run whose verdict is stale with the code-changed message: cached
reviewed diff `+a`, three-dot diff `+b`, two-dot diff `+c`. -/
def envStaleChanged : Env :=
  { baseEnv with
      cachedDiff := some "+a\n"
      compareCurrent := Except.ok "+b\n"
      diffProc := ⟨none, "+c\n", some 1⟩ }

/-- The trace of `dismissIfStale envStaleChanged`. -/
def traceStaleChanged : Trace :=
  { Trace.empty with
      calledGenReviewedDiff := true
      calledCompareCurrent := true
      calledGenTwoDot := true
      dismissed := some msgChanged }

/-- A run where the fast path succeeds: valid cached metadata, resolvable
merge base, and a range-diff of one identical commit. -/
def envFastPath : Env :=
  { baseEnv with
      path_to_cached_metadata := "approval-metadata.json"
      metadataFile := some (some ⟨some 1, some "appr0", some "mb0"⟩)
      mergeBase := Except.ok "mb1"
      rangeDiffOut := some "1:  abc1234 = 1:  def5678 First commit" }

/-- A run where the spawned `git diff` exits with status 2: the two-dot
diff degrades to `null` and the run dismisses with the two-dot message. -/
def envTwoDotFails : Env :=
  { baseEnv with
      cachedDiff := some "+a\n"
      compareCurrent := Except.ok "+b\n"
      diffProc := ⟨none, "xyz", some 2⟩ }

/-- The trace of `dismissIfStale envTwoDotFails`. -/
def traceTwoDotFails : Trace :=
  { Trace.empty with
      calledGenReviewedDiff := true
      calledCompareCurrent := true
      calledGenTwoDot := true
      dismissed := some msgTwoDot }

/-- A run of the legacy variant that reaches the rebase retry and whose
rebase fails: reviewed `+a`, three-dot `+b`, two-dot `+c`, rebaseable. -/
def envLegacyRebase : Legacy.Env :=
  { payload := stdPayload
    diffs_dir := ""
    dry_run := false
    cachedDiff := some "+a\n"
    reviews := []
    events := []
    compareHistorical := Except.error "unused"
    compareCurrent := Except.ok "+b\n"
    cloneOk := true
    fetchOk := true
    twoDotOut := "+c\n"
    rebaseOk := false
    rebasedOut := "" }

/-- An `opened` event: the trigger filter must skip. -/
def envOpened : Env :=
  { baseEnv with payload := { stdPayload with action := some "opened" } }

/-- A review and a timeline event for the reviewed-diff reconstruction
scenarios. -/
def approvalReview : Review :=
  ⟨1, some "c0ffee", some "2024-01-01T00:00:00Z", "APPROVED"⟩

/-- A `base_ref_changed` event dated at the approval instant of
`approvalReview` (so at-or-after the approval). -/
def baseRefChangedEvent : TimelineEvent :=
  ⟨"base_ref_changed", some "2024-01-01T00:00:00Z"⟩

/-! ## Theorems -/

theorem splitOnNl_cons (a : Char) (rest : List Char) :
    splitOnNl (a :: rest) =
      match splitOnNl rest with
      | [] => [[]]
      | line :: more =>
        if a = '\n' then [] :: line :: more else (a :: line) :: more := rfl

/-- Characters of a line produced by `splitOnNl` are characters of the
input. -/
theorem splitOnNl_sub {cs l : List Char} (hl : l ∈ splitOnNl cs) :
    ∀ {c}, c ∈ l → c ∈ cs := by
  induction cs generalizing l with
  | nil =>
    simp only [splitOnNl, List.mem_singleton] at hl
    subst hl
    intro c hc
    cases hc
  | cons a rest ih =>
    intro c hc
    rw [splitOnNl_cons] at hl
    cases hsp : splitOnNl rest with
    | nil =>
      rw [hsp] at hl
      dsimp only at hl
      simp only [List.mem_singleton] at hl
      subst hl
      cases hc
    | cons line more =>
      rw [hsp] at hl
      dsimp only at hl
      by_cases ha : a = '\n'
      · rw [if_pos ha] at hl
        rcases List.mem_cons.mp hl with h | h
        · subst h
          cases hc
        · exact List.mem_cons_of_mem _ (ih (hsp ▸ h) hc)
      · rw [if_neg ha] at hl
        rcases List.mem_cons.mp hl with h | h
        · subst h
          rcases List.mem_cons.mp hc with h | h
          · subst h
            exact List.mem_cons_self _ _
          · have hline : line ∈ splitOnNl rest := by
              rw [hsp]; exact List.mem_cons_self _ _
            exact List.mem_cons_of_mem _ (ih hline h)
        · have hm : l ∈ splitOnNl rest := by
            rw [hsp]; exact List.mem_cons_of_mem _ h
          exact List.mem_cons_of_mem _ (ih hm hc)

/-- A line consisting only of `\s` characters is never tallied. -/
theorem isStaleRecord_of_all_space {l : List Char}
    (hall : ∀ c ∈ l, isJsSpace c = true) : isStaleRecord l = false := by
  cases l with
  | nil => rfl
  | cons c rest =>
    by_cases hs : isSkippedLine (c :: rest)
    · simp [isStaleRecord, hs]
    · have hdrop : (c :: rest).dropWhile isJsSpace = [] :=
        List.dropWhile_eq_nil_iff.mpr hall
      have hm : matchRecordMarker (c :: rest) = none := by
        unfold matchRecordMarker
        rw [hdrop]
        rfl
      simp [isStaleRecord, hm]

/-- `jsTrim l = []` forces every character of `l` to be whitespace. -/
theorem all_space_of_jsTrim_nil {l : List Char} (h : jsTrim l = []) :
    ∀ c ∈ l, isJsSpace c = true := by
  unfold jsTrim at h
  rw [List.reverse_eq_nil_iff] at h
  have h2 : ∀ c ∈ (l.dropWhile isJsSpace).reverse, isJsSpace c = true :=
    List.dropWhile_eq_nil_iff.mp h
  have h3 : ∀ c ∈ l.dropWhile isJsSpace, isJsSpace c = true := by
    intro c hc
    exact h2 c (List.mem_reverse.mpr hc)
  intro c hc
  rw [← List.takeWhile_append_dropWhile (p := isJsSpace) (l := l)] at hc
  rcases List.mem_append.mp hc with h4 | h4
  · exact List.mem_takeWhile_imp h4
  · exact h3 c h4

/-- One loop iteration adds one to the stale tallies exactly when the line
is a tallied non-identical record. -/
theorem tallyLine_staleSum (acc : MarkerCounts) (l : List Char) :
    (tallyLine acc l).modifiedCount + (tallyLine acc l).addedCount +
        (tallyLine acc l).removedCount =
      acc.modifiedCount + acc.addedCount + acc.removedCount +
        (if isStaleRecord l = true then 1 else 0) := by
  unfold tallyLine
  by_cases hs : isSkippedLine l
  · simp [isStaleRecord, hs]
  · rw [if_neg hs]
    cases hm : matchRecordMarker l with
    | none => simp [isStaleRecord, hs, hm]
    | some m =>
      by_cases h1 : m = '='
      · subst h1
        have hr : isStaleRecord l = false := by simp [isStaleRecord, hs, hm]
        simp [hr]
      · by_cases h2 : m = '!'
        · subst h2
          have hr : isStaleRecord l = true := by simp [isStaleRecord, hs, hm]
          simp [hr]
          omega
        · by_cases h3 : m = '>'
          · subst h3
            have hr : isStaleRecord l = true := by
              simp [isStaleRecord, hs, hm]
            simp [hr]
            omega
          · by_cases h4 : m = '<'
            · subst h4
              have hr : isStaleRecord l = true := by
                simp [isStaleRecord, hs, hm]
              simp [hr]
              omega
            · have hr : isStaleRecord l = false := by
                simp [isStaleRecord, hs, hm, h2, h3, h4]
              rw [hr]
              split
              next heq => injection heq with h; exact absurd h h1
              next heq => injection heq with h; exact absurd h h2
              next heq => injection heq with h; exact absurd h h3
              next heq => injection heq with h; exact absurd h h4
              next => simp

/-- The fold of the parsing loop counts the stale records. -/
theorem foldl_tally_staleSum (ls : List (List Char)) (acc : MarkerCounts) :
    ((ls.foldl tallyLine acc).modifiedCount +
        (ls.foldl tallyLine acc).addedCount +
        (ls.foldl tallyLine acc).removedCount) =
      acc.modifiedCount + acc.addedCount + acc.removedCount +
        ls.countP (fun l => isStaleRecord l) := by
  induction ls generalizing acc with
  | nil => simp
  | cons l ls ih =>
    rw [List.foldl_cons, ih, List.countP_cons, tallyLine_staleSum]
    omega

/-- C3: for every input string, `parseRangeDiffOutput` reports stale
exactly when some tallied commit record carries marker `!`, `<` or `>`
(`isStaleRecord`); in particular empty or whitespace-only input has no
talliable line and is not stale, blank and space/tab-indented lines are
never tallied, and lines not matching the record shape contribute nothing
instead of causing a failure. -/
theorem parseRangeDiffOutput_stale_iff (s : String) :
    (parseRangeDiffOutput s).isStale = true ↔
      ∃ l ∈ splitOnNl s.data, isStaleRecord l = true := by
  unfold parseRangeDiffOutput
  split
  next h =>
    simp only [Bool.false_eq_true, false_iff]
    rintro ⟨l, hl, hrec⟩
    have hall : ∀ c ∈ s.data, isJsSpace c = true := by
      rcases h with h0 | htr
      · intro c hc
        rw [h0] at hc
        cases hc
      · exact all_space_of_jsTrim_nil htr
    have hf : isStaleRecord l = false :=
      isStaleRecord_of_all_space (fun c hc => hall c (splitOnNl_sub hl hc))
    rw [hf] at hrec
    cases hrec
  next h =>
    have hsum := foldl_tally_staleSum (splitOnNl s.data) ⟨0, 0, 0, 0⟩
    dsimp only at hsum
    dsimp only
    split
    next hch =>
      simp only [true_iff]
      have hpos : 0 < (splitOnNl s.data).countP (fun l => isStaleRecord l) := by
        simp only [Bool.or_eq_true, decide_eq_true_eq] at hch
        omega
      exact List.countP_pos_iff.mp hpos
    next hch =>
      simp only [Bool.false_eq_true, false_iff]
      rintro ⟨l, hl, hrec⟩
      have hpos : 0 < (splitOnNl s.data).countP (fun l => isStaleRecord l) :=
        List.countP_pos_iff.mpr ⟨l, hl, hrec⟩
      simp only [Bool.or_eq_true, decide_eq_true_eq, not_or] at hch
      omega

/-! ### Lemmas about `normalizeDiff` -/

theorem stripLit_self_append (p r : List Char) :
    stripLit p (p ++ r) = some r := by
  induction p with
  | nil => rfl
  | cons c cs ih => simpa [stripLit] using ih

theorem dropWhile_of_all_append (p : Char → Bool) (l1 l2 : List Char)
    (h1 : ∀ c ∈ l1, p c = true)
    (h2 : match l2 with | [] => True | c :: _ => p c = false) :
    List.dropWhile p (l1 ++ l2) = l2 := by
  have hnil : List.dropWhile p l1 = [] := List.dropWhile_eq_nil_iff.mpr h1
  cases l2 with
  | nil => simpa using hnil
  | cons c t =>
    rw [List.dropWhile_append, hnil]
    simp [List.dropWhile_cons, h2]

theorem takePlus_of_all_append (p : Char → Bool) (l1 l2 : List Char)
    (hne : l1 ≠ []) (h1 : ∀ c ∈ l1, p c = true)
    (h2 : match l2 with | [] => True | c :: _ => p c = false) :
    takePlus p (l1 ++ l2) = some l2 := by
  cases l1 with
  | nil => exact absurd rfl hne
  | cons a t =>
    have ha : p a = true := h1 a (List.mem_cons_self _ _)
    have hrest : List.dropWhile p (t ++ l2) = l2 :=
      dropWhile_of_all_append p t l2 (fun c hc => h1 c (List.mem_cons_of_mem _ hc)) h2
    simp [takePlus, ha, hrest]

/-- Computing the `index`-metadata match on a line of the shape
`index ⟨h1⟩..⟨h2⟩⟨l2⟩` where `h1`, `h2` are nonempty hex runs and `l2`
does not start with a hex digit. -/
theorem matchIndexMeta_full (h1 h2 l2 : List Char)
    (hne1 : h1 ≠ []) (hne2 : h2 ≠ [])
    (hh1 : ∀ c ∈ h1, isHexDigitLower c = true)
    (hh2 : ∀ c ∈ h2, isHexDigitLower c = true)
    (hl2 : match l2 with | [] => True | c :: _ => isHexDigitLower c = false) :
    matchIndexMeta ("index ".toList ++ h1 ++ "..".toList ++ h2 ++ l2) =
      some l2 := by
  have e0 : stripLit "index ".toList
      ("index ".toList ++ (h1 ++ ("..".toList ++ (h2 ++ l2)))) =
      some (h1 ++ ("..".toList ++ (h2 ++ l2))) := stripLit_self_append _ _
  have e1 : takePlus isHexDigitLower (h1 ++ ("..".toList ++ (h2 ++ l2))) =
      some ("..".toList ++ (h2 ++ l2)) := by
    apply takePlus_of_all_append _ _ _ hne1 hh1
    show isHexDigitLower '.' = false
    decide
  have e2 : stripLit "..".toList ("..".toList ++ (h2 ++ l2)) =
      some (h2 ++ l2) := stripLit_self_append _ _
  have e3 : takePlus isHexDigitLower (h2 ++ l2) = some l2 :=
    takePlus_of_all_append _ _ _ hne2 hh2 hl2
  unfold matchIndexMeta
  simp only [List.append_assoc, e0, e1, e2, e3, Option.some_bind]

theorem stripLit_append_one (p l : List Char) (x : Char) (hx : x ∉ p) :
    stripLit p (l ++ [x]) = (stripLit p l).map (fun r => r ++ [x]) := by
  induction p generalizing l with
  | nil => rfl
  | cons c cs ih =>
    cases l with
    | nil =>
      have hxc : ¬x = c := fun h => hx (h ▸ List.mem_cons_self _ _)
      simp [stripLit, hxc]
    | cons a as =>
      by_cases hac : a = c
      · subst hac
        simpa [stripLit] using ih as (fun h => hx (List.mem_cons_of_mem _ h))
      · simp [stripLit, hac]

theorem takePlus_append_one (p : Char → Bool) (l : List Char) (x : Char)
    (hx : p x = false) :
    takePlus p (l ++ [x]) = (takePlus p l).map (fun r => r ++ [x]) := by
  cases l with
  | nil => simp [takePlus, hx]
  | cons c cs =>
    by_cases hc : p c = true
    · have hd : List.dropWhile p (cs ++ [x]) = List.dropWhile p cs ++ [x] := by
        rw [List.dropWhile_append]
        by_cases hend : List.dropWhile p cs = []
        · simp [hend, List.dropWhile_cons, hx]
        · simp [hend]
      simp [takePlus, hc, hd]
    · simp [takePlus, hc]

/-- Appending a line terminator to a line commutes with the
`index`-metadata match: no character of the pattern is a terminator. -/
theorem matchIndexMeta_append_nl (l : List Char) :
    matchIndexMeta (l ++ ['\n']) =
      (matchIndexMeta l).map (fun r => r ++ ['\n']) := by
  unfold matchIndexMeta
  rw [stripLit_append_one _ _ _ (by decide)]
  cases h1 : stripLit "index ".toList l with
  | none => rfl
  | some l1 =>
    simp only [Option.map_some', Option.some_bind]
    rw [takePlus_append_one _ _ _ (by decide)]
    cases h2 : takePlus isHexDigitLower l1 with
    | none => rfl
    | some l2 =>
      simp only [Option.map_some', Option.some_bind]
      rw [stripLit_append_one _ _ _ (by decide)]
      cases h3 : stripLit "..".toList l2 with
      | none => rfl
      | some l3 =>
        simp only [Option.map_some', Option.some_bind]
        rw [takePlus_append_one _ _ _ (by decide)]

/-- `splitLinesKT` splits off a terminator-free line ended by `'\n'`. -/
theorem splitLinesKT_append (line rest : List Char)
    (h : ∀ c ∈ line, isJsLineTerm c = false) :
    splitLinesKT (line ++ '\n' :: rest) =
      (line ++ ['\n']) :: splitLinesKT rest := by
  induction line with
  | nil => simp [splitLinesKT, isJsLineTerm]
  | cons a t ih =>
    have ha : isJsLineTerm a = false := h a (List.mem_cons_self _ _)
    have ih2 := ih (fun c hc => h c (List.mem_cons_of_mem _ hc))
    simp only [List.cons_append, splitLinesKT, ha, Bool.false_eq_true,
      if_false, List.append_eq, ih2]

/-- `normalizeDiffChars` processes a `'\n'`-terminated line and the rest of
the text independently. -/
theorem normalizeDiffChars_cons_line (line rest : List Char)
    (h : ∀ c ∈ line, isJsLineTerm c = false) :
    normalizeDiffChars (line ++ '\n' :: rest) =
      stripIndexLine (line ++ ['\n']) ++ normalizeDiffChars rest := by
  unfold normalizeDiffChars
  rw [splitLinesKT_append line rest h]
  simp [joinAll]

theorem splitLinesKT_ne_nil {l : List Char} (h : l ≠ []) :
    splitLinesKT l ≠ [] := by
  cases l with
  | nil => exact absurd rfl h
  | cons c rest =>
    unfold splitLinesKT
    by_cases hc : isJsLineTerm c = true
    · simp [hc]
    · simp only [hc]
      cases splitLinesKT rest <;> simp

theorem joinAll_splitLinesKT (l : List Char) :
    joinAll (splitLinesKT l) = l := by
  induction l with
  | nil => rfl
  | cons c rest ih =>
    unfold splitLinesKT
    by_cases hc : isJsLineTerm c = true
    · rw [if_pos hc]
      show joinAll ([c] :: splitLinesKT rest) = c :: rest
      have hrest : List.foldr (fun a b => a ++ b) [] (splitLinesKT rest) = rest := ih
      simp only [joinAll, List.foldr_cons, hrest]
      rfl
    · simp only [hc, Bool.false_eq_true, if_false]
      cases hsp : splitLinesKT rest with
      | nil =>
        have : rest = [] := by
          by_contra hne
          exact splitLinesKT_ne_nil hne hsp
        subst this
        simp [joinAll]
      | cons piece more =>
        have hj : joinAll (piece :: more) = rest := by rw [← hsp]; exact ih
        simp only [joinAll, List.foldr_cons] at hj ⊢
        rw [List.cons_append, hj]

/-- When no line of `s` matches the `index` pattern, `normalizeDiff`
changes nothing. -/
theorem normalizeDiff_id_of_noResidual {s : String}
    (h : noResidualIndexMeta s = true) : normalizeDiff s = s := by
  unfold noResidualIndexMeta at h
  rw [List.all_eq_true] at h
  unfold normalizeDiff normalizeDiffChars
  have hfix : ∀ piece ∈ splitLinesKT s.data, stripIndexLine piece = piece := by
    intro piece hp
    unfold stripIndexLine
    cases hm : matchIndexMeta piece with
    | none => rfl
    | some r =>
      exfalso
      have h2 := h piece hp
      rw [hm] at h2
      simp [Option.isNone] at h2
  have hmap : (splitLinesKT s.data).map stripIndexLine = splitLinesKT s.data := by
    calc (splitLinesKT s.data).map stripIndexLine
        = (splitLinesKT s.data).map id :=
          List.map_congr_left (fun a ha => by simpa using hfix a ha)
      _ = splitLinesKT s.data := List.map_id _
  rw [hmap, joinAll_splitLinesKT]

theorem hex_not_term {c : Char} (h : isHexDigitLower c = true) :
    isJsLineTerm c = false := by
  have hm : c ∈ "0123456789abcdef".toList := by
    simpa [isHexDigitLower] using h
  fin_cases hm <;> rfl

/-- C9 (corrected by this counterexample): on the line
`index abc123..def456 100644` the global replace removes only the matched
prefix `index abc123..def456`; the mode suffix ` 100644` and the line's
terminator survive, so the whole line is not removed. -/
theorem normalizeDiff_keeps_mode_suffix_cex :
    normalizeDiff "index abc123..def456 100644\n+foo" = " 100644\n+foo" ∧
    normalizeDiff "index abc123..def456 100644\n+foo" ≠ "+foo" ∧
    normalizeDiff "index abc123..def456 100644\n+foo" ≠ "\n+foo" :=
  ⟨by decide, by decide, by decide⟩

/-- C9 (amended): `normalizeDiff` removes from every line beginning with
`index ⟨hex⟩..⟨hex⟩` exactly that matched prefix — the rest of the line
(such as a ` ⟨mode⟩` suffix) and the terminator stay — and preserves every
line not matching the pattern byte-for-byte, processing the remaining
lines unchanged. -/
theorem normalizeDiff_strips_index_meta :
    (∀ (h1 h2 suffix rest : List Char),
        h1 ≠ [] → h2 ≠ [] →
        (∀ c ∈ h1, isHexDigitLower c = true) →
        (∀ c ∈ h2, isHexDigitLower c = true) →
        (match suffix with | [] => True | c :: _ => isHexDigitLower c = false) →
        (∀ c ∈ suffix, isJsLineTerm c = false) →
        normalizeDiffChars
            ("index ".toList ++ h1 ++ "..".toList ++ h2 ++ suffix ++
              '\n' :: rest) =
          suffix ++ '\n' :: normalizeDiffChars rest) ∧
    (∀ (line rest : List Char),
        (∀ c ∈ line, isJsLineTerm c = false) →
        matchIndexMeta line = none →
        normalizeDiffChars (line ++ '\n' :: rest) =
          line ++ '\n' :: normalizeDiffChars rest) := by
  constructor
  · intro h1 h2 suffix rest hne1 hne2 hh1 hh2 hhead hnt
    have hline : ∀ c ∈ "index ".toList ++ h1 ++ "..".toList ++ h2 ++ suffix,
        isJsLineTerm c = false := by
      intro c hc
      simp only [List.append_assoc, List.mem_append] at hc
      rcases hc with hc | hc | hc | hc | hc
      · fin_cases hc <;> rfl
      · exact hex_not_term (hh1 c hc)
      · fin_cases hc <;> rfl
      · exact hex_not_term (hh2 c hc)
      · exact hnt c hc
    rw [normalizeDiffChars_cons_line _ rest hline]
    have hmatch : matchIndexMeta
        (("index ".toList ++ h1 ++ "..".toList ++ h2 ++ suffix) ++ ['\n']) =
        some (suffix ++ ['\n']) := by
      have := matchIndexMeta_full h1 h2 (suffix ++ ['\n']) hne1 hne2 hh1 hh2
        (by
          cases suffix with
          | nil => show isHexDigitLower '\n' = false; decide
          | cons c t => exact hhead)
      simpa [List.append_assoc] using this
    unfold stripIndexLine
    rw [hmatch]
    simp
  · intro line rest hnt hnone
    rw [normalizeDiffChars_cons_line line rest hnt]
    have hfix : stripIndexLine (line ++ ['\n']) = line ++ ['\n'] := by
      unfold stripIndexLine
      rw [matchIndexMeta_append_nl, hnone]
      rfl
    rw [hfix]
    simp

/-- Witness for the amended C9, at the concrete inputs of the claim. -/
theorem normalizeDiff_strips_index_meta_witness :
    normalizeDiffChars
        ("index ".toList ++ "abc123".toList ++ "..".toList ++
          "def456".toList ++ " 100644".toList ++ '\n' :: "+foo".toList) =
      " 100644".toList ++ '\n' :: normalizeDiffChars "+foo".toList ∧
    normalizeDiffChars ("+++ b/x".toList ++ '\n' :: " ctx".toList) =
      "+++ b/x".toList ++ '\n' :: normalizeDiffChars " ctx".toList := by
  constructor
  · exact normalizeDiff_strips_index_meta.1 "abc123".toList "def456".toList
      " 100644".toList "+foo".toList (by decide) (by decide) (by decide)
      (by decide) (by show isHexDigitLower ' ' = false; decide) (by decide)
  · exact normalizeDiff_strips_index_meta.2 "+++ b/x".toList " ctx".toList
      (by decide) (by decide)

/-- C10 (corrected by this counterexample): `normalizeDiff` is not
idempotent — stripping `index ab..cd` from `index ab..cdindex ef..ab`
exposes a second `index` prefix, which only a second application strips. -/
theorem normalizeDiff_not_idempotent_cex :
    normalizeDiff (normalizeDiff "index ab..cdindex ef..ab") ≠
      normalizeDiff "index ab..cdindex ef..ab" := by decide

/-- C10 (amended): `normalizeDiff` is idempotent on every diff text whose
single normalization leaves no line still beginning with `index`-metadata
(every well-formed git diff does); in general a second application can
strip again. -/
theorem normalizeDiff_idempotent_when_settled (d : String)
    (h : noResidualIndexMeta (normalizeDiff d) = true) :
    normalizeDiff (normalizeDiff d) = normalizeDiff d :=
  normalizeDiff_id_of_noResidual h

/-- Witness for the amended C10 on a well-formed diff. -/
theorem normalizeDiff_idempotent_when_settled_witness :
    noResidualIndexMeta
        (normalizeDiff "diff --git a/x b/x\nindex ab..cd 100644\n+1") = true ∧
    normalizeDiff
        (normalizeDiff "diff --git a/x b/x\nindex ab..cd 100644\n+1") =
      normalizeDiff "diff --git a/x b/x\nindex ab..cd 100644\n+1" :=
  ⟨by decide, normalizeDiff_idempotent_when_settled _ (by decide)⟩

theorem scanEventsRev_cons (e : TimelineEvent) (rest : List TimelineEvent)
    (t : String) :
    scanEventsRev (e :: rest) t =
      match e.created_at with
      | none => Except.error "Unable to determine time of event."
      | some c =>
        if c = "" then Except.error "Unable to determine time of event."
        else if c < t then Except.ok false
        else if e.event == "base_ref_changed" then Except.ok true
        else scanEventsRev rest t := rfl

/-- When every event carries a truthy timestamp, the scanned list is
reverse-chronological, and it contains a `base_ref_changed` event not
earlier than the approval, the scan reports `true` (no throw). -/
theorem scanEventsRev_base_changed (l : List TimelineEvent) (t : String)
    (hall : ∀ e ∈ l, ∃ s, e.created_at = some s ∧ s ≠ "")
    (hsort : l.Pairwise (fun a b => createdAtStr b ≤ createdAtStr a))
    (hx : ∃ e ∈ l, ¬(createdAtStr e < t) ∧ e.event = "base_ref_changed") :
    scanEventsRev l t = Except.ok true := by
  induction l with
  | nil =>
    rcases hx with ⟨e, he, _⟩
    cases he
  | cons e rest ih =>
    obtain ⟨s, hs, hsne⟩ := hall e (List.mem_cons_self _ _)
    rw [scanEventsRev_cons, hs]
    dsimp only
    rw [if_neg hsne]
    by_cases hlt : s < t
    · exfalso
      rcases hx with ⟨e', he', hge, hev⟩
      rcases List.mem_cons.mp he' with rfl | hmem
      · exact hge (by simpa [createdAtStr, hs] using hlt)
      · have hle : createdAtStr e' ≤ createdAtStr e :=
          (List.pairwise_cons.mp hsort).1 e' hmem
        apply hge
        calc createdAtStr e' ≤ createdAtStr e := hle
          _ = s := by simp [createdAtStr, hs]
          _ < t := hlt
    · rw [if_neg hlt]
      by_cases hbe : (e.event == "base_ref_changed") = true
      · rw [if_pos hbe]
      · rw [if_neg hbe]
        apply ih
        · intro x hx2
          exact hall x (List.mem_cons_of_mem _ hx2)
        · exact (List.pairwise_cons.mp hsort).2
        · rcases hx with ⟨e', he', hge, hev⟩
          rcases List.mem_cons.mp he' with rfl | hmem
          · exact absurd (by simp [hev]) hbe
          · exact ⟨e', hmem, hge, hev⟩

/-- C7: a base-branch-changed timeline event at or after the most recent
approval, and an API error comparing the historical base against the
approved commit, both degrade to the unknown reviewed diff (`Except.ok
none`) and never escape `getMostRecentlyReviewedDiff` / `genReviewedDiff`
as an error of the run. -/
theorem reviewedDiff_degrades_to_unknown :
    (∀ (pr : PullRequestPayload) (reviews : List Review)
        (events : List TimelineEvent) (cmp : Except String String)
        (mr : Review) (t : String),
        (approvedOf reviews).getLast? = some mr →
        mr.submitted_at = some t → t ≠ "" →
        (∀ e ∈ events, ∃ s, e.created_at = some s ∧ s ≠ "") →
        events.Pairwise (fun a b => createdAtStr a ≤ createdAtStr b) →
        (∃ e ∈ events, ¬(createdAtStr e < t) ∧ e.event = "base_ref_changed") →
        getMostRecentlyReviewedDiff (some pr) reviews events cmp =
            Except.ok none ∧
          genReviewedDiff none (some pr) reviews events cmp =
            Except.ok none) ∧
    (∀ (pr : PullRequestPayload) (reviews : List Review)
        (events : List TimelineEvent) (err : String) (mr : Review)
        (t : String),
        (approvedOf reviews).getLast? = some mr →
        mr.submitted_at = some t → t ≠ "" →
        scanEventsRev events.reverse t = Except.ok false →
        truthyOpt mr.commit_id = true →
        getMostRecentlyReviewedDiff (some pr) reviews events
            (Except.error err) = Except.ok none ∧
          genReviewedDiff none (some pr) reviews events (Except.error err) =
            Except.ok none) := by
  constructor
  · intro pr reviews events cmp mr t hlast hsub htne hall hsort hx
    have hscan : scanEventsRev events.reverse t = Except.ok true := by
      apply scanEventsRev_base_changed
      · intro e he
        exact hall e (List.mem_reverse.mp he)
      · exact List.pairwise_reverse.mpr hsort
      · rcases hx with ⟨e, he, h1, h2⟩
        exact ⟨e, List.mem_reverse.mpr he, h1, h2⟩
    have hmain : getMostRecentlyReviewedDiff (some pr) reviews events cmp =
        Except.ok none := by
      unfold getMostRecentlyReviewedDiff
      rw [hlast]
      dsimp only
      rw [hsub]
      dsimp only
      rw [if_neg htne, hscan]
    exact ⟨hmain, by simpa [genReviewedDiff] using hmain⟩
  · intro pr reviews events err mr t hlast hsub htne hscan hcid
    have hmain : getMostRecentlyReviewedDiff (some pr) reviews events
        (Except.error err) = Except.ok none := by
      unfold getMostRecentlyReviewedDiff
      rw [hlast]
      dsimp only
      rw [hsub]
      dsimp only
      rw [if_neg htne, hscan]
      dsimp only
      simp [hcid]
    exact ⟨hmain, by simpa [genReviewedDiff] using hmain⟩

/-- Witness for C7: one approval; a `base_ref_changed` event the day after
the approval, and separately a failing compare call. -/
theorem reviewedDiff_degrades_to_unknown_witness :
    getMostRecentlyReviewedDiff (some ⟨"main", "b", "h", false⟩)
        [approvalReview] [baseRefChangedEvent] (Except.ok "d") =
      Except.ok none ∧
    getMostRecentlyReviewedDiff (some ⟨"main", "b", "h", false⟩)
        [approvalReview] [] (Except.error "HTTP 500") = Except.ok none := by
  constructor
  · exact (reviewedDiff_degrades_to_unknown.1 ⟨"main", "b", "h", false⟩
      [approvalReview] [baseRefChangedEvent] (Except.ok "d") approvalReview
      "2024-01-01T00:00:00Z" (by decide) (by decide) (by decide)
      (by
        intro e he
        simp only [List.mem_singleton] at he
        subst he
        exact ⟨"2024-01-01T00:00:00Z", rfl, by decide⟩)
      (List.pairwise_singleton _ _)
      ⟨baseRefChangedEvent, List.mem_singleton.mpr rfl,
        (by
          show ¬(("2024-01-01T00:00:00Z" : String) < "2024-01-01T00:00:00Z")
          exact lt_irrefl _), rfl⟩).1
  · exact (reviewedDiff_degrades_to_unknown.2 ⟨"main", "b", "h", false⟩
      [approvalReview] [] "HTTP 500" approvalReview "2024-01-01T00:00:00Z"
      (by decide) (by decide) (by decide) rfl (by decide)).1

/-- C4: `tryRangeDiffCheck` treats an absent metadata file (or empty
configured path), unparseable JSON, a version other than 1, and missing
`approved_sha`/`merge_base_sha` fields all as the `fallback` result — the
fast path degrades to the diff comparison instead of throwing (the model
of `tryRangeDiffCheck` is a total function: every failure of an external
call it makes is a value it consumes). -/
theorem tryRangeDiffCheck_fallback (env : Env)
    (h : env.path_to_cached_metadata = "" ∨ env.metadataFile = none ∨
        env.metadataFile = some none ∨
        (∃ m, env.metadataFile = some (some m) ∧
          (m.version ≠ some 1 ∨ truthyOpt m.approved_sha = false ∨
            truthyOpt m.merge_base_sha = false))) :
    (tryRangeDiffCheck env).1 = RangeDiffCheckResult.fallback := by
  unfold tryRangeDiffCheck
  rcases h with h | h | h | ⟨m, hm, hbad⟩
  · rw [if_pos h]
  · by_cases hp : env.path_to_cached_metadata = ""
    · rw [if_pos hp]
    · rw [if_neg hp, h]
  · by_cases hp : env.path_to_cached_metadata = ""
    · rw [if_pos hp]
    · rw [if_neg hp, h]
  · by_cases hp : env.path_to_cached_metadata = ""
    · rw [if_pos hp]
    · rw [if_neg hp, hm]
      dsimp only
      by_cases hv : m.version ≠ some 1
      · rw [if_pos hv]
      · rw [if_neg hv]
        have hcond :
            (!truthyOpt m.approved_sha || !truthyOpt m.merge_base_sha) = true := by
          rcases hbad with h1 | h1 | h1
          · exact absurd h1 hv
          · simp [h1]
          · simp [h1]
        rw [if_pos hcond]

/-- Witness for C4: `baseEnv` has no cached metadata path. -/
theorem tryRangeDiffCheck_fallback_witness :
    (tryRangeDiffCheck baseEnv).1 = RangeDiffCheckResult.fallback :=
  tryRangeDiffCheck_fallback baseEnv (Or.inl rfl)

/-- C8: an event that is neither `synchronize` nor `edited`-with-a-prior-
base-SHA makes `dismissIfStale` return at once: result `skipped`, trace
`Trace.empty` (no API call, no dismissal, no file or repository
mutation), and no thrown error. -/
theorem dismissIfStale_skip_no_effects (env : Env)
    (h : triggerRelevant env.payload = false) :
    dismissIfStale env = Except.ok (RunResult.skipped, Trace.empty) ∧
    Trace.empty.getMergeBaseCalled = false ∧
    Trace.empty.ranRangeDiff = false ∧
    Trace.empty.calledGenReviewedDiff = false ∧
    Trace.empty.calledCompareCurrent = false ∧
    Trace.empty.calledGenTwoDot = false ∧
    Trace.empty.attemptedRebase = false ∧
    Trace.empty.wroteReviewedFile = false ∧
    Trace.empty.wroteCurrentFile = false ∧
    Trace.empty.dismissed = none := by
  refine ⟨?_, rfl, rfl, rfl, rfl, rfl, rfl, rfl, rfl, rfl⟩
  unfold dismissIfStale
  simp [h]

/-- Witness for C8 at an `opened` event. -/
theorem dismissIfStale_skip_no_effects_witness :
    dismissIfStale envOpened = Except.ok (RunResult.skipped, Trace.empty) ∧
    Trace.empty.getMergeBaseCalled = false ∧
    Trace.empty.ranRangeDiff = false ∧
    Trace.empty.calledGenReviewedDiff = false ∧
    Trace.empty.calledCompareCurrent = false ∧
    Trace.empty.calledGenTwoDot = false ∧
    Trace.empty.attemptedRebase = false ∧
    Trace.empty.wroteReviewedFile = false ∧
    Trace.empty.wroteCurrentFile = false ∧
    Trace.empty.dismissed = none :=
  dismissIfStale_skip_no_effects envOpened rfl

/-- Every trace `tryRangeDiffCheck` can produce is a `mkFastTrace`. -/
theorem tryRangeDiffCheck_trace (env : Env) :
    ∃ b1 b2, (tryRangeDiffCheck env).2 = mkFastTrace b1 b2 := by
  unfold tryRangeDiffCheck
  repeat' split
  all_goals exact ⟨_, _, rfl⟩

/-- C2: whenever the fast path succeeds — `tryRangeDiffCheck` returns
`not_stale` on the cached metadata — `dismissIfStale` terminates right
there: no reviewed-diff reconstruction, no three-dot or two-dot current
diff, and no dismissal happen in that run. -/
theorem dismissIfStale_fastPath_terminates (env : Env)
    (htrig : triggerRelevant env.payload = true)
    (pr : PullRequestPayload) (hctor : ctorCheck env.payload = Except.ok pr)
    (hfast : (tryRangeDiffCheck env).1 = RangeDiffCheckResult.not_stale) :
    dismissIfStale env =
        Except.ok (RunResult.fastPathNotStale, (tryRangeDiffCheck env).2) ∧
      (tryRangeDiffCheck env).2.calledGenReviewedDiff = false ∧
      (tryRangeDiffCheck env).2.calledCompareCurrent = false ∧
      (tryRangeDiffCheck env).2.calledGenTwoDot = false ∧
      (tryRangeDiffCheck env).2.dismissed = none := by
  obtain ⟨b1, b2, htr⟩ := tryRangeDiffCheck_trace env
  refine ⟨?_, ?_, ?_, ?_, ?_⟩
  · unfold dismissIfStale
    rw [if_pos htrig, hctor]
    dsimp only
    rw [if_pos hfast]
  · rw [htr]; rfl
  · rw [htr]; rfl
  · rw [htr]; rfl
  · rw [htr]; rfl

/-- Witness for C2 at `envFastPath` (one identical commit). -/
theorem dismissIfStale_fastPath_terminates_witness :
    dismissIfStale envFastPath =
        Except.ok (RunResult.fastPathNotStale, (tryRangeDiffCheck envFastPath).2) ∧
      (tryRangeDiffCheck envFastPath).2.calledGenReviewedDiff = false ∧
      (tryRangeDiffCheck envFastPath).2.calledCompareCurrent = false ∧
      (tryRangeDiffCheck envFastPath).2.calledGenTwoDot = false ∧
      (tryRangeDiffCheck envFastPath).2.dismissed = none :=
  dismissIfStale_fastPath_terminates envFastPath rfl
    ⟨"main", "bsha0", "hsha0", true⟩ rfl rfl

/-- Behaviour of the verdict tail: the recorded diffs are the ones passed
in, the trace's dismissal mirrors the verdict, dismissal happens exactly
on inequality, and the message is one of the three fixed strings (and
exactly `msg` when the reviewed diff is truthy and `msg` nonempty). -/
theorem finishVerdict_spec (dd : String) (reviewed : Option String)
    (cur msg : String) (t : Trace) (hm : msg = "" ∨ msg = msgTwoDot)
    (ht : t.dismissed = none) (r : Option String) (c : String)
    (d : Option String) (t' : Trace)
    (h : finishVerdict dd reviewed cur msg t = (RunResult.verdict r c d, t')) :
    r = reviewed ∧ c = cur ∧ t'.dismissed = d ∧
      t'.calledGenTwoDot = t.calledGenTwoDot ∧
      ((d ≠ none) ↔ r ≠ some c) ∧
      (d ≠ none →
        d = some msgUnable ∨ d = some msgChanged ∨ d = some msgTwoDot) ∧
      (reviewed ≠ some cur → truthyOpt reviewed = true → msg ≠ "" →
        d = some msg) := by
  unfold finishVerdict at h
  set t1 := if dd ≠ "" then { t with wroteCurrentFile := true } else t with ht1
  have ht1d : t1.dismissed = none := by
    rw [ht1]
    split <;> simp [ht]
  have ht1g : t1.calledGenTwoDot = t.calledGenTwoDot := by
    rw [ht1]
    split <;> simp
  by_cases he : reviewed = some cur
  · rw [if_pos he] at h
    rw [Prod.mk.injEq] at h
    obtain ⟨h1, h2⟩ := h
    injection h1 with hr hc hd
    subst hr
    subst hc
    subst hd
    subst h2
    refine ⟨rfl, rfl, ht1d, ht1g, by simp [he], ?_, ?_⟩
    · intro hd
      exact absurd rfl hd
    · intro hne
      exact absurd he hne
  · rw [if_neg he] at h
    rw [Prod.mk.injEq] at h
    obtain ⟨h1, h2⟩ := h
    injection h1 with hr hc hd
    subst hr
    subst hc
    subst hd
    subst h2
    refine ⟨rfl, rfl, by simp, by simp [ht1g], by simp [he], ?_, ?_⟩
    · intro _
      by_cases h3 : truthyOpt reviewed = false
      · rw [if_pos h3]
        exact Or.inl rfl
      · rw [if_neg h3]
        by_cases h4 : msg = ""
        · rw [if_pos h4]
          exact Or.inr (Or.inl rfl)
        · rw [if_neg h4]
          rcases hm with h5 | h5
          · exact absurd h5 h4
          · exact Or.inr (Or.inr (h5 ▸ rfl))
    · intro _ htrue h4
      have h3 : ¬truthyOpt reviewed = false := by simp [htrue]
      rw [if_neg h3, if_neg h4]

/-- Behaviour of the two-dot reconciliation tail on a verdict result. -/
theorem slowTail_verdict_spec (env : Env) (reviewed : Option String)
    (cur1 : String) (t : Trace) (ht : t.dismissed = none) (r : Option String)
    (c : String) (d : Option String) (t' : Trace)
    (h : slowTail env reviewed cur1 t =
      Except.ok (RunResult.verdict r c d, t')) :
    r = reviewed ∧ t'.dismissed = d ∧ ((d ≠ none) ↔ r ≠ some c) ∧
      (d ≠ none →
        d = some msgUnable ∨ d = some msgChanged ∨ d = some msgTwoDot) := by
  unfold slowTail at h
  split at h
  · rcases hrepo : env.payload.repository with _ | repo
    · rw [hrepo] at h
      exact absurd h (by simp)
    · rw [hrepo] at h
      dsimp only at h
      rcases htd : genTwoDotDiff env with e | td
      · rw [htd] at h
        exact absurd h (by simp)
      · rw [htd] at h
        rcases td with _ | td0
        · dsimp only at h
          injection h with h
          obtain ⟨e1, e2, e3, e4, e5, e6, e7⟩ := finishVerdict_spec
            env.diffs_dir reviewed cur1 msgTwoDot
            { t with calledGenTwoDot := true } (Or.inr rfl) (by simp [ht])
            r c d t' h
          exact ⟨e1, e3, e5, e6⟩
        · dsimp only at h
          injection h with h
          obtain ⟨e1, e2, e3, e4, e5, e6, e7⟩ := finishVerdict_spec
            env.diffs_dir reviewed (normalizeDiff td0) ""
            { t with calledGenTwoDot := true } (Or.inl rfl) (by simp [ht])
            r c d t' h
          exact ⟨e1, e3, e5, e6⟩
  · injection h with h
    obtain ⟨e1, e2, e3, e4, e5, e6, e7⟩ := finishVerdict_spec env.diffs_dir
      reviewed cur1 "" t (Or.inl rfl) ht r c d t' h
    exact ⟨e1, e3, e5, e6⟩

/-- A verdict-producing run factors through `slowTail` applied to the
normalized reviewed and three-dot diffs, with a dismissal-free trace. -/
theorem dismissIfStale_verdict_inversion (env : Env) (r : Option String)
    (c : String) (d : Option String) (t : Trace)
    (h : dismissIfStale env = Except.ok (RunResult.verdict r c d, t)) :
    ∃ r0 cd0 t2,
      genReviewedDiff env.cachedDiff env.payload.pull_request env.reviews
          env.events env.compareHistorical = Except.ok r0 ∧
      env.compareCurrent = Except.ok cd0 ∧
      Trace.dismissed t2 = none ∧ Trace.calledGenTwoDot t2 = false ∧
      slowTail env (normReviewed r0) (normalizeDiff cd0) t2 =
        Except.ok (RunResult.verdict r c d, t) := by
  unfold dismissIfStale at h
  by_cases htrig : triggerRelevant env.payload = true
  · rw [if_pos htrig] at h
    rcases hctor : ctorCheck env.payload with e | pr
    · rw [hctor] at h
      exact absurd h (by simp)
    · rw [hctor] at h
      dsimp only at h
      by_cases hfp : (tryRangeDiffCheck env).1 = RangeDiffCheckResult.not_stale
      · rw [if_pos hfp] at h
        exact absurd h (by simp)
      · rw [if_neg hfp] at h
        rcases hgen : genReviewedDiff env.cachedDiff env.payload.pull_request
            env.reviews env.events env.compareHistorical with e | r0
        · rw [hgen] at h
          exact absurd h (by simp)
        · rw [hgen] at h
          dsimp only at h
          rcases hcd : env.compareCurrent with e | cd0
          · rw [hcd] at h
            exact absurd h (by simp)
          · rw [hcd] at h
            dsimp only at h
            obtain ⟨b1, b2, htr⟩ := tryRangeDiffCheck_trace env
            refine ⟨r0, cd0, _, rfl, rfl, ?_, ?_, h⟩
            · simp [htr, mkFastTrace, Trace.empty]
            · simp [htr, mkFastTrace, Trace.empty]
  · rw [if_neg htrig] at h
    exact absurd h (by simp)

/-- C1 (corrected by this counterexample): a run that reaches the verdict
step and is not stale still performs an external effect — with a diffs
directory configured it writes `current.diff` (and `reviewed.diff`). -/
theorem dismissIfStale_notStale_effect_cex :
    dismissIfStale envNotStaleWrites =
        Except.ok (RunResult.verdict (some "+x\n") "+x\n" none,
          traceNotStaleWrites) ∧
      traceNotStaleWrites.dismissed = none ∧
      traceNotStaleWrites.wroteCurrentFile = true ∧
      traceNotStaleWrites.wroteReviewedFile = true :=
  ⟨rfl, rfl, rfl, rfl⟩

/-- C1 (amended): every run reaching the verdict step dismisses exactly
when the final reviewed diff is unknown or differs from the final current
diff (both held in normalized form), with one of the three fixed —
pairwise distinct — cause messages, and performs no dismissal otherwise;
diagnostic diff files may however be written even on a not-stale verdict
when a diffs directory is configured. -/
theorem dismissIfStale_verdict_spec (env : Env) (r : Option String)
    (c : String) (d : Option String) (t : Trace)
    (h : dismissIfStale env = Except.ok (RunResult.verdict r c d, t)) :
    ((d ≠ none) ↔ r ≠ some c) ∧ t.dismissed = d ∧
      (d ≠ none →
        d = some msgUnable ∨ d = some msgChanged ∨ d = some msgTwoDot) ∧
      msgUnable ≠ msgChanged ∧ msgUnable ≠ msgTwoDot ∧
      msgChanged ≠ msgTwoDot := by
  obtain ⟨r0, cd0, t2, hgen, hcd, ht2, htg, hslow⟩ :=
    dismissIfStale_verdict_inversion env r c d t h
  obtain ⟨e1, e2, e3, e4⟩ := slowTail_verdict_spec env (normReviewed r0)
    (normalizeDiff cd0) t2 ht2 r c d t hslow
  exact ⟨e3, e2, e4, by decide, by decide, by decide⟩

/-- Witness for the amended C1 at `envStaleChanged`. -/
theorem dismissIfStale_verdict_spec_witness :
    ((some msgChanged ≠ (none : Option String)) ↔
        (some "+a\n" ≠ some "+c\n")) ∧
      traceStaleChanged.dismissed = some msgChanged ∧
      (some msgChanged ≠ (none : Option String) →
        some msgChanged = some msgUnable ∨
          some msgChanged = some msgChanged ∨
          some msgChanged = some msgTwoDot) ∧
      msgUnable ≠ msgChanged ∧ msgUnable ≠ msgTwoDot ∧
      msgChanged ≠ msgTwoDot :=
  dismissIfStale_verdict_spec envStaleChanged (some "+a\n") "+c\n"
    (some msgChanged) traceStaleChanged rfl

/-- C6: `genTwoDotDiff` returns the `null` sentinel — never a thrown
error — when the spawned diff's output exceeds the 32MB buffer, when the
spawn itself fails, or when the exit status is above 1; status 0 and 1
are success; and a run that received `null` keeps the normalized
three-dot diff as the final current diff and dismisses with the two-dot
failure message. -/
theorem genTwoDotDiff_soft_fail :
    (∀ env : Env,
        (env.repoDirExists = true ∨ env.cloneOk = true) →
        env.fetchOk = true →
        (env.diffProc.output.length > twoDotMaxBuffer ∨
          env.diffProc.spawnFailureCode ≠ none ∨
          (∃ n, env.diffProc.exitStatus = some n ∧ n > 1)) →
        genTwoDotDiff env = Except.ok none) ∧
    (∀ (env : Env) (n : Int),
        (env.repoDirExists = true ∨ env.cloneOk = true) →
        env.fetchOk = true →
        env.diffProc.spawnFailureCode = none →
        ¬env.diffProc.output.length > twoDotMaxBuffer →
        env.diffProc.exitStatus = some n → n ≤ 1 →
        genTwoDotDiff env = Except.ok (some env.diffProc.output)) ∧
    (∀ (env : Env) (cd : String) (r : Option String) (c : String)
        (d : Option String) (t : Trace),
        env.compareCurrent = Except.ok cd →
        dismissIfStale env = Except.ok (RunResult.verdict r c d, t) →
        t.calledGenTwoDot = true →
        genTwoDotDiff env = Except.ok none →
        c = normalizeDiff cd ∧ d = some msgTwoDot) := by
  refine ⟨?_, ?_, ?_⟩
  · intro env hclone hfetch hbad
    have hcl : ¬(env.repoDirExists = false ∧ env.cloneOk = false) := by
      rcases hclone with h | h <;> simp [h]
    unfold genTwoDotDiff
    rw [if_neg hcl, if_neg (by simp [hfetch])]
    rcases hsf : env.diffProc.spawnFailureCode with _ | code
    · by_cases hbig : env.diffProc.output.length > twoDotMaxBuffer
      · have hrun : runSpawn twoDotMaxBuffer env.diffProc =
            ⟨some "ENOBUFS", none, ""⟩ := by
          unfold runSpawn
          rw [hsf]
          dsimp only
          rw [if_pos hbig]
        rw [hrun]
      · rcases hbad with hbig2 | hsf2 | ⟨n, hst, hgt⟩
        · exact absurd hbig2 hbig
        · rw [hsf] at hsf2
          exact absurd rfl hsf2
        · have hrun : runSpawn twoDotMaxBuffer env.diffProc =
              ⟨none, env.diffProc.exitStatus, env.diffProc.output⟩ := by
            unfold runSpawn
            rw [hsf]
            dsimp only
            rw [if_neg hbig]
          rw [hrun]
          dsimp only
          rw [hst]
          dsimp only
          rw [if_pos hgt]
    · have hrun : runSpawn twoDotMaxBuffer env.diffProc =
          ⟨some code, none, ""⟩ := by
        unfold runSpawn
        rw [hsf]
      rw [hrun]
  · intro env n hclone hfetch hsf hbig hst hle
    have hcl : ¬(env.repoDirExists = false ∧ env.cloneOk = false) := by
      rcases hclone with h | h <;> simp [h]
    unfold genTwoDotDiff
    rw [if_neg hcl, if_neg (by simp [hfetch])]
    have hrun : runSpawn twoDotMaxBuffer env.diffProc =
        ⟨none, env.diffProc.exitStatus, env.diffProc.output⟩ := by
      unfold runSpawn
      rw [hsf]
      dsimp only
      rw [if_neg hbig]
    rw [hrun]
    dsimp only
    rw [hst]
    dsimp only
    rw [if_neg (by omega)]
  · intro env cd r c d t hcd h htg htd
    obtain ⟨r0, cd0, t2, hgen, hcd2, ht2, htg2, hslow⟩ :=
      dismissIfStale_verdict_inversion env r c d t h
    have hcdeq : cd0 = cd := by
      rw [hcd] at hcd2
      injection hcd2 with h2
      exact h2.symm
    subst hcdeq
    unfold slowTail at hslow
    split at hslow
    case isTrue hcond =>
      rcases hrepo : env.payload.repository with _ | repo
      · rw [hrepo] at hslow
        exact absurd hslow (by simp)
      · rw [hrepo] at hslow
        dsimp only at hslow
        rw [htd] at hslow
        dsimp only at hslow
        injection hslow with hslow
        obtain ⟨e1, e2, e3, e4, e5, e6, e7⟩ := finishVerdict_spec
          env.diffs_dir (normReviewed r0) (normalizeDiff cd0) msgTwoDot
          { t2 with calledGenTwoDot := true } (Or.inr rfl) (by simp [ht2])
          r c d t hslow
        simp only [Bool.and_eq_true, Bool.not_eq_true', beq_eq_false_iff_ne,
          ne_eq] at hcond
        exact ⟨e2, e7 hcond.2 hcond.1 (by decide)⟩
    case isFalse hcond =>
      injection hslow with hslow
      obtain ⟨e1, e2, e3, e4, e5, e6, e7⟩ := finishVerdict_spec env.diffs_dir
        (normReviewed r0) (normalizeDiff cd0) "" t2 (Or.inl rfl) ht2
        r c d t hslow
      exfalso
      rw [htg, htg2] at e4
      exact absurd e4 (by decide)

/-- Witness for C6: exit status 2 degrades to `null` and the run keeps the
three-dot diff `+b` while dismissing with the two-dot message; exit
status 1 with small output succeeds. -/
theorem genTwoDotDiff_soft_fail_witness :
    genTwoDotDiff envTwoDotFails = Except.ok none ∧
    genTwoDotDiff envStaleChanged = Except.ok (some "+c\n") ∧
    ("+b\n" = normalizeDiff "+b\n" ∧
      (some msgTwoDot : Option String) = some msgTwoDot) :=
  ⟨genTwoDotDiff_soft_fail.1 envTwoDotFails (Or.inl rfl) rfl
      (Or.inr (Or.inr ⟨2, rfl, by decide⟩)),
    genTwoDotDiff_soft_fail.2.1 envStaleChanged 1 (Or.inl rfl) rfl rfl
      (by decide) rfl (by decide),
    genTwoDotDiff_soft_fail.2.2 envTwoDotFails "+b\n" (some "+a\n") "+b\n"
      (some msgTwoDot) traceTwoDotFails rfl rfl rfl rfl⟩

/-- `Legacy.finishRun` always reports a verdict on the diffs passed in and
leaves the rebase-attempt flag unchanged. -/
theorem legacy_finish_ok (dd : String) (dr : Bool) (rev : Option String)
    (cur : String) (t : Trace) (hat : t.attemptedRebase = true) :
    ∃ d t',
      (Except.ok (Legacy.finishRun dd dr rev cur t) :
          Except String (RunResult × Trace)) =
        Except.ok (RunResult.verdict rev cur d, t') ∧
      t'.attemptedRebase = true := by
  unfold Legacy.finishRun
  dsimp only
  by_cases he : rev = some cur
  · rw [if_pos he]
    refine ⟨none, _, rfl, ?_⟩
    split <;> simp [hat]
  · rw [if_neg he]
    refine ⟨some (if truthyOpt rev = false then msgUnable else msgChanged),
      _, rfl, ?_⟩
    by_cases hdr : dr = true
    · rw [if_pos hdr]
      split <;> simp [hat]
    · rw [if_neg hdr]
      split <;> simp [hat]

/-- C5: in the legacy `dismissIfStale`, when the normalized reviewed diff
still differs from the normalized two-dot diff and the pull request is
flagged rebaseable, the rebase retry is attempted; a successful rebase
recomputes the two-dot diff once more, and a failed rebase is swallowed
(the run still completes) with the pre-rebase two-dot diff kept as the
final current diff. -/
theorem legacy_rebase_reconcile (env : Legacy.Env) (s cd : String)
    (htrig : triggerRelevant env.payload = true)
    (pr : PullRequestPayload) (hctor : ctorCheck env.payload = Except.ok pr)
    (hreb : pr.rebaseable = true)
    (hgen : genReviewedDiff env.cachedDiff env.payload.pull_request
        env.reviews env.events env.compareHistorical = Except.ok (some s))
    (hs : normalizeDiff s ≠ "")
    (hcd : env.compareCurrent = Except.ok cd)
    (hne1 : normalizeDiff s ≠ normalizeDiff cd)
    (hclone : env.cloneOk = true) (hfetch : env.fetchOk = true)
    (hne2 : normalizeDiff s ≠ normalizeDiff env.twoDotOut) :
    ∃ d t,
      Legacy.dismissIfStale env =
        Except.ok (RunResult.verdict (some (normalizeDiff s))
          (if env.rebaseOk then normalizeDiff env.rebasedOut
            else normalizeDiff env.twoDotOut) d, t) ∧
      t.attemptedRebase = true := by
  have hsne : s ≠ "" := by
    intro h0
    subst h0
    exact hs rfl
  have hnr : normReviewed (some s) = some (normalizeDiff s) := by
    simp [normReviewed, hsne]
  unfold Legacy.dismissIfStale
  rw [if_pos htrig, hctor]
  dsimp only
  rw [hgen]
  dsimp only
  rw [hcd]
  dsimp only
  rw [hnr]
  have hc1 : (truthyOpt (some (normalizeDiff s)) &&
      !((some (normalizeDiff s) : Option String) ==
        some (normalizeDiff cd))) = true := by
    simp [truthyOpt, hs, hne1]
  rw [if_pos hc1, if_neg (by simp [hclone]), if_neg (by simp [hfetch])]
  have hc2 : (!((some (normalizeDiff s) : Option String) ==
      some (normalizeDiff env.twoDotOut)) && pr.rebaseable) = true := by
    simp [hne2, hreb]
  rw [if_pos hc2]
  by_cases hr : env.rebaseOk = true
  · rw [if_pos hr]
    rw [show (if env.rebaseOk = true then normalizeDiff env.rebasedOut
      else normalizeDiff env.twoDotOut) = normalizeDiff env.rebasedOut from
      if_pos hr]
    exact legacy_finish_ok _ _ _ _ _ rfl
  · rw [if_neg hr]
    rw [show (if env.rebaseOk = true then normalizeDiff env.rebasedOut
      else normalizeDiff env.twoDotOut) = normalizeDiff env.twoDotOut from
      if_neg hr]
    exact legacy_finish_ok _ _ _ _ _ rfl

/-- Witness for C5 at `envLegacyRebase` (rebase fails; two-dot kept). -/
theorem legacy_rebase_reconcile_witness :
    ∃ d t,
      Legacy.dismissIfStale envLegacyRebase =
        Except.ok (RunResult.verdict (some (normalizeDiff "+a\n"))
          (if envLegacyRebase.rebaseOk
            then normalizeDiff envLegacyRebase.rebasedOut
            else normalizeDiff envLegacyRebase.twoDotOut) d, t) ∧
      t.attemptedRebase = true :=
  legacy_rebase_reconcile envLegacyRebase "+a\n" "+b\n" rfl
    ⟨"main", "bsha0", "hsha0", true⟩ rfl rfl rfl (by decide) rfl (by decide)
    rfl rfl (by decide)
